import Mathlib

/-!
Verification of the STT benchmark engine of the VoiceDraft repository
(file `scripts/benchmark-stt.mjs`).

The script is shallowly embedded here:

* JavaScript numbers are modelled by `ℚ` (every value the engine computes
  is produced by exact field operations on finite inputs); the JS value
  `null`/`undefined` for a numeric slot is modelled by `Option ℚ`.
* JS strings are modelled by `List Char`; the Unicode letter/number
  character classes of the normalizer regexes are modelled over the ASCII
  fragment (`isLetterOrNumberChar`), and the JS whitespace class by an
  explicit character set (`isJsWhitespace`).
* The provider adapters that perform network or process I/O are excluded
  collaborators in the specification; the orchestrator is therefore
  embedded relative to an abstract transcription outcome
  (`TranscribeOutcome`), exactly the adapter boundary the spec describes.
* Loops become structural recursion; the row-wise Levenshtein dynamic
  program of the script is embedded as written (`levenshteinDistance`)
  and proved equal to the textbook recursive Levenshtein distance (`lev`).
-/

/-- The `clamp(value, min, max)` helper of the script, written with JS
`Math.max` and `Math.min`. -/
def clamp (value lo hi : ℚ) : ℚ := max lo (min hi value)

/-- The `mean` helper of the script: `null` on an empty array, otherwise the
sum divided by the length. -/
def mean (values : List ℚ) : Option ℚ :=
  if values = [] then none
  else some (values.sum / values.length)

/-- Safe indexing with an integer index, modelling a JS array access
`sorted[i]` that yields `undefined` (here `none`) out of bounds. -/
def listGetInt (l : List ℚ) (i : ℤ) : Option ℚ :=
  if 0 ≤ i then l[i.toNat]? else none

/-- The `percentile` helper of the script: `null` on an empty array;
otherwise sort ascending, take the fractional index `p/100 * (n-1)`, and
linearly interpolate between the entries at its floor and ceiling. -/
def percentile (values : List ℚ) (p : ℚ) : Option ℚ :=
  if values = [] then none
  else
    let sorted := List.insertionSort (fun a b => a ≤ b) values
    let index : ℚ := p / 100 * ((values.length : ℚ) - 1)
    let lower : ℤ := ⌊index⌋
    let upper : ℤ := ⌈index⌉
    if lower = upper then listGetInt sorted lower
    else
      match listGetInt sorted lower, listGetInt sorted upper with
      | some lo, some hi => some (lo + (hi - lo) * (index - (lower : ℚ)))
      | _, _ => none

/-- The JS whitespace class `\s` (the code points the benchmark script can
meet in practice, including the common Unicode whitespace points). -/
def isJsWhitespace (c : Char) : Bool :=
  c = ' ' || c = Char.ofNat 9 || c = Char.ofNat 10 || c = Char.ofNat 11 ||
  c = Char.ofNat 12 || c = Char.ofNat 13 || c = Char.ofNat 160 ||
  c = Char.ofNat 0x2028 || c = Char.ofNat 0x2029 || c = Char.ofNat 0xfeff

/-- Model of the Unicode letter/number classes `\p{L}\p{N}` of the
normalizer regex, over the ASCII fragment: letters `A`–`Z`, `a`–`z` and
digits `0`–`9`. -/
def isLetterOrNumberChar (c : Char) : Bool :=
  (65 ≤ c.toNat && c.toNat ≤ 90) || (97 ≤ c.toNat && c.toNat ≤ 122) ||
  (48 ≤ c.toNat && c.toNat ≤ 57)

/-- ASCII model of `String.prototype.toLowerCase`. -/
def jsToLower (c : Char) : Char :=
  if 65 ≤ c.toNat && c.toNat ≤ 90 then Char.ofNat (c.toNat + 32) else c

/-- The literal character class of the first `replace` of
`normalizeTranscript`: the source file contains the bytes of a mojibake
right single quote, so the class is the apostrophe together with the three
characters `U+00E2`, `U+20AC`, `U+2122` (and not `U+2019` itself). -/
def strippedQuoteChars : List Char :=
  [Char.ofNat 39, Char.ofNat 0xe2, Char.ofNat 0x20ac, Char.ofNat 0x2122]

/-- First `replace` of the normalizer: delete every character of the
apostrophe character class. -/
def stripQuotes (l : List Char) : List Char :=
  l.filter (fun c => !(strippedQuoteChars.contains c))

/-- Second `replace` of the normalizer: every character that is not a
letter, number or whitespace becomes a single space. -/
def replaceNonAlnum (l : List Char) : List Char :=
  l.map (fun c => if isLetterOrNumberChar c || isJsWhitespace c then c else ' ')

/-- Third `replace` of the normalizer: each maximal run of whitespace
becomes one space. -/
def collapseWhitespace : List Char → List Char
  | [] => []
  | [c] => if isJsWhitespace c then [' '] else [c]
  | c :: d :: rest =>
    if isJsWhitespace c && isJsWhitespace d then collapseWhitespace (d :: rest)
    else (if isJsWhitespace c then ' ' else c) :: collapseWhitespace (d :: rest)

/-- The `trim` call of the normalizer: drop whitespace from both ends. -/
def trimWhitespace (l : List Char) : List Char :=
  ((l.dropWhile isJsWhitespace).reverse.dropWhile isJsWhitespace).reverse

/-- The `normalizeTranscript` function of the script: lower-case, strip the
apostrophe character class, replace every character outside the
letter/number/whitespace classes by a space, collapse whitespace runs, trim. -/
def normalizeTranscript (s : List Char) : List Char :=
  trimWhitespace (collapseWhitespace (replaceNonAlnum (stripQuotes (s.map jsToLower))))

/-- JS `split(" ")` on a list of characters. -/
def splitOnSpace : List Char → List (List Char)
  | [] => [[]]
  | c :: rest =>
    if c = ' ' then [] :: splitOnSpace rest
    else
      match splitOnSpace rest with
      | [] => [[c]]
      | w :: ws => (c :: w) :: ws

/-- The `tokenizeWords` function of the script: the empty normalized string
yields no tokens, otherwise split the normalized string on spaces. -/
def tokenizeWords (s : List Char) : List (List Char) :=
  let normalized := normalizeTranscript s
  if normalized = [] then [] else splitOnSpace normalized

/-- The `tokenizeChars` function of the script: remove all whitespace from
the normalized string and yield one token per remaining character. -/
def tokenizeChars (s : List Char) : List Char :=
  (normalizeTranscript s).filter (fun c => !(isJsWhitespace c))

/-- Unit substitution cost of the script: 0 if the elements agree, else 1. -/
def subCost {α : Type} [DecidableEq α] (a b : α) : ℕ :=
  if a = b then 0 else 1

/-- Textbook recursive Levenshtein distance with unit costs; this is the
mathematical specification the dynamic program of the script computes. -/
def lev {α : Type} [DecidableEq α] : List α → List α → ℕ
  | [], t => t.length
  | s, [] => s.length
  | a :: s, b :: t =>
    min (lev s (b :: t) + 1) (min (lev (a :: s) t + 1) (lev s t + subCost a b))
termination_by s t => s.length + t.length
decreasing_by all_goals (simp only [List.length_cons]; omega)

theorem lev_nil_left {α : Type} [DecidableEq α] (t : List α) : lev [] t = t.length := by
  cases t <;> simp [lev]

theorem lev_cons_nil {α : Type} [DecidableEq α] (a : α) (s : List α) :
    lev (a :: s) [] = s.length + 1 := by
  simp [lev]

theorem lev_nil_right {α : Type} [DecidableEq α] (s : List α) : lev s [] = s.length := by
  cases s with
  | nil => simp [lev_nil_left]
  | cons a s => simp [lev_cons_nil]

theorem lev_cons_cons {α : Type} [DecidableEq α] (a b : α) (s t : List α) :
    lev (a :: s) (b :: t) =
      min (lev s (b :: t) + 1) (min (lev (a :: s) t + 1) (lev s t + subCost a b)) := by
  rw [lev]

/-- The recursive distance agrees with the Levenshtein distance of Mathlib
under the unit cost structure. -/
theorem lev_eq_levenshtein {α : Type} [DecidableEq α] (s t : List α) :
    lev s t = levenshtein Levenshtein.defaultCost s t := by
  induction s generalizing t with
  | nil =>
    induction t with
    | nil => simp [lev_nil_left, levenshtein_nil_nil]
    | cons y t iht =>
      simp [lev_nil_left, levenshtein_nil_cons, ← iht, lev_nil_left]
      omega
  | cons x s ihs =>
    induction t with
    | nil =>
      simp [lev_cons_nil, levenshtein_cons_nil, ← ihs [], lev_nil_right]
      omega
    | cons y t iht =>
      rw [lev_cons_cons, levenshtein_cons_cons, ← ihs (y :: t), ← iht, ← ihs t]
      simp [Levenshtein.defaultCost, subCost]
      omega


theorem nat_min_add (a b c : ℕ) : min a b + c = min (a + c) (b + c) := by
  omega

theorem lev_min_shuffle (p1 p2 p3 p4 p5 p6 p7 p8 p9 c1 c2 : ℕ) :
    min (min (p1 + 1) (min (p2 + 1) (p3 + c2)) + 1)
      (min (min (p4 + 1) (min (p5 + 1) (p6 + c2)) + 1)
        (min (p7 + 1) (min (p8 + 1) (p9 + c2)) + c1)) =
    min (min (p1 + 1) (min (p4 + 1) (p7 + c1)) + 1)
      (min (min (p2 + 1) (min (p5 + 1) (p8 + c1)) + 1)
        (min (p3 + 1) (min (p6 + 1) (p9 + c1)) + c2)) := by
  simp only [nat_min_add]
  ac_rfl

theorem lev_min_shuffle_left (n L c2 cay : ℕ) :
    min (n + 1 + 1 + 1) (min (min (n + 1 + 1) (min (L + 1) (n + c2)) + 1) (n + 1 + cay)) =
    min (n + 1 + 1 + 1) (min (min (n + 1 + 1) (min (L + 1) (n + cay)) + 1) (n + 1 + c2)) := by
  simp only [nat_min_add]
  ac_rfl

theorem lev_min_shuffle_right (n L c2 cxb : ℕ) :
    min (min (L + 1) (min (n + 1 + 1) (n + c2)) + 1) (min (n + 1 + 1 + 1) (n + 1 + cxb)) =
    min (min (L + 1) (min (n + 1 + 1) (n + cxb)) + 1) (min (n + 1 + 1 + 1) (n + 1 + c2)) := by
  simp only [nat_min_add]
  ac_rfl

/-- The Levenshtein recurrence also holds when one element is appended on
the right of each list; this is the invariant behind the row-wise dynamic
program of the script. -/
theorem lev_snoc_snoc {α : Type} [DecidableEq α] (a b : α) :
    ∀ s t : List α, lev (s ++ [a]) (t ++ [b]) =
      min (lev s (t ++ [b]) + 1)
        (min (lev (s ++ [a]) t + 1) (lev s t + subCost a b)) := by
  intro s
  induction s with
  | nil =>
    intro t
    induction t with
    | nil =>
      simp only [List.nil_append, lev_cons_cons]
    | cons y t iht =>
      simp only [List.nil_append, List.cons_append] at iht ⊢
      rw [lev_cons_cons a y ([]) (t ++ [b]), iht]
      rw [lev_cons_cons a y ([]) t]
      simp only [lev_nil_left, lev_nil_right, List.length_append, List.length_cons,
        List.length_nil, Nat.zero_add, Nat.add_zero]
      exact lev_min_shuffle_left t.length (lev ([a]) t) (subCost a b) (subCost a y)
  | cons x s ihs =>
    intro t
    induction t with
    | nil =>
      have h1 := ihs []
      simp only [List.nil_append, List.cons_append] at h1 ⊢
      rw [lev_cons_cons x b (s ++ [a]) [], h1]
      rw [lev_cons_cons x b s []]
      simp only [lev_nil_right, lev_cons_nil, List.length_append, List.length_cons,
        List.length_nil, Nat.zero_add, Nat.add_zero]
      exact lev_min_shuffle_right s.length (lev s ([b])) (subCost a b) (subCost x b)
    | cons y t iht =>
      have h1 := ihs (y :: t)
      have h2 := ihs t
      simp only [List.cons_append] at h1 h2 iht ⊢
      rw [lev_cons_cons x y (s ++ [a]) (t ++ [b]), h1, iht, h2]
      rw [lev_cons_cons x y s (t ++ [b]), lev_cons_cons x y (s ++ [a]) t,
        lev_cons_cons x y s t]
      exact lev_min_shuffle (lev s (y :: (t ++ [b]))) (lev (s ++ [a]) (y :: t))
        (lev s (y :: t)) (lev (x :: s) (t ++ [b])) (lev (x :: (s ++ [a])) t)
        (lev (x :: s) t) (lev s (t ++ [b])) (lev (s ++ [a]) t) (lev s t)
        (subCost x y) (subCost a b)

/-- Inner loop of the dynamic program of the script over the target: from
the current source character, the cell to the left, the diagonal cell, the
rest of the previous row and the remaining target characters, produce the
rest of the current row. -/
def levRowRest {α : Type} [DecidableEq α] (a : α) :
    ℕ → ℕ → List ℕ → List α → List ℕ
  | _, _, _, [] => []
  | _, _, [], _ :: _ => []
  | left, diag, p :: ps, b :: t =>
    min (p + 1) (min (left + 1) (diag + subCost a b)) ::
      levRowRest a (min (p + 1) (min (left + 1) (diag + subCost a b))) p ps t

/-- Outer loop body of the dynamic program: compute the current row from the
previous row; the leading cell is the row index. -/
def levNextRow {α : Type} [DecidableEq α] (target : List α) (prev : List ℕ) (a : α) :
    List ℕ :=
  match prev with
  | [] => []
  | p0 :: ps => (p0 + 1) :: levRowRest a (p0 + 1) p0 ps target

/-- The `levenshteinDistance` function of the script: early returns for an
empty source or target, then the row-wise dynamic program over the source,
returning the last entry of the final row. -/
def levenshteinDistance {α : Type} [DecidableEq α] (source target : List α) : ℕ :=
  if source = [] then target.length
  else if target = [] then source.length
  else (source.foldl (levNextRow target) (List.range (target.length + 1))).getLastD 0

/-- The tail of the ideal row of the dynamic program for source prefix `p`:
the distances from `p` to `pre` extended by each nonempty prefix of `t`. -/
def levRowTail {α : Type} [DecidableEq α] (p : List α) : List α → List α → List ℕ
  | _, [] => []
  | pre, b :: t => lev p (pre ++ [b]) :: levRowTail p (pre ++ [b]) t

/-- The ideal row of the dynamic program for source prefix `p`: the
distances from `p` to every prefix of the target. -/
def levRowFor {α : Type} [DecidableEq α] (p target : List α) : List ℕ :=
  lev p [] :: levRowTail p [] target

theorem levRowRest_spec {α : Type} [DecidableEq α] (a : α) :
    ∀ t pre p : List α,
      levRowRest a (lev (p ++ [a]) pre) (lev p pre) (levRowTail p pre t) t =
        levRowTail (p ++ [a]) pre t := by
  intro t
  induction t with
  | nil => intro pre p; rfl
  | cons b t ih =>
    intro pre p
    simp only [levRowTail, levRowRest, ← lev_snoc_snoc a b p pre]
    rw [ih (pre ++ [b]) p]

theorem levNextRow_spec {α : Type} [DecidableEq α] (a : α) (p target : List α) :
    levNextRow target (levRowFor p target) a = levRowFor (p ++ [a]) target := by
  have hlen : lev p [] + 1 = lev (p ++ [a]) [] := by
    simp [lev_nil_right]
  simp only [levRowFor, levNextRow, hlen]
  rw [levRowRest_spec a target [] p]

theorem levFoldl_spec {α : Type} [DecidableEq α] (target : List α) :
    ∀ s p : List α,
      List.foldl (levNextRow target) (levRowFor p target) s = levRowFor (p ++ s) target := by
  intro s
  induction s with
  | nil => intro p; simp
  | cons a s ih =>
    intro p
    simp only [List.foldl_cons, levNextRow_spec a p target, ih (p ++ [a])]
    simp [List.append_assoc]

theorem levRowTail_nil_src {α : Type} [DecidableEq α] :
    ∀ t pre : List α,
      levRowTail ([] : List α) pre t =
        (List.range t.length).map (fun k => pre.length + 1 + k) := by
  intro t
  induction t with
  | nil => intro pre; rfl
  | cons b t ih =>
    intro pre
    simp only [levRowTail, lev_nil_left, ih (pre ++ [b]), List.length_cons,
      List.range_succ_eq_map, List.map_cons, List.map_map, List.length_append,
      List.length_nil]
    congr 1
    apply List.map_congr_left
    intro k _
    simp only [Function.comp_apply, Nat.succ_eq_add_one]
    omega

theorem levRowFor_nil_src {α : Type} [DecidableEq α] (target : List α) :
    List.range (target.length + 1) = levRowFor ([] : List α) target := by
  simp only [levRowFor, lev_nil_left, List.length_nil, levRowTail_nil_src,
    List.range_succ_eq_map]
  congr 1
  apply List.map_congr_left
  intro k _
  simp only [Nat.succ_eq_add_one]
  omega

theorem levRowTail_getLastD {α : Type} [DecidableEq α] (p : List α) :
    ∀ t pre : List α, ∀ d : ℕ, t ≠ [] →
      (levRowTail p pre t).getLastD d = lev p (pre ++ t) := by
  intro t
  induction t with
  | nil => intro pre d h; exact absurd rfl h
  | cons b t ih =>
    intro pre d _
    cases t with
    | nil => simp [levRowTail]
    | cons c t =>
      rw [show levRowTail p pre (b :: c :: t) =
          lev p (pre ++ [b]) :: levRowTail p (pre ++ [b]) (c :: t) from rfl]
      rw [List.getLastD_cons, ih (pre ++ [b]) (lev p (pre ++ [b])) (by simp)]
      simp

theorem levRowFor_getLastD {α : Type} [DecidableEq α] (p target : List α)
    (h : target ≠ []) : (levRowFor p target).getLastD 0 = lev p target := by
  rw [show levRowFor p target = lev p [] :: levRowTail p [] target from rfl]
  rw [List.getLastD_cons, levRowTail_getLastD p target [] (lev p []) h]
  simp

/-- The dynamic program of the script computes exactly the recursive
Levenshtein distance. -/
theorem levenshteinDistance_eq_lev {α : Type} [DecidableEq α] (s t : List α) :
    levenshteinDistance s t = lev s t := by
  unfold levenshteinDistance
  by_cases hs : s = []
  · simp [hs, lev_nil_left]
  · by_cases ht : t = []
    · simp [hs, ht, lev_nil_right]
    · simp only [hs, ht, if_false]
      rw [levRowFor_nil_src t, levFoldl_spec t s ([]), List.nil_append]
      exact levRowFor_getLastD s t ht

/-- The `computeWordErrorRate` function of the script: 0 when both token
lists are empty, 1 when only the reference is empty, otherwise the edit
distance divided by the reference word count. -/
def computeWordErrorRate (reference hypothesis : List Char) : ℚ :=
  let refWords := tokenizeWords reference
  let hypWords := tokenizeWords hypothesis
  if refWords.length = 0 then (if hypWords.length = 0 then 0 else 1)
  else (levenshteinDistance refWords hypWords : ℚ) / (refWords.length : ℚ)

/-- The `computeCharacterErrorRate` function of the script, identical in
shape over character tokens. -/
def computeCharacterErrorRate (reference hypothesis : List Char) : ℚ :=
  let refChars := tokenizeChars reference
  let hypChars := tokenizeChars hypothesis
  if refChars.length = 0 then (if hypChars.length = 0 then 0 else 1)
  else (levenshteinDistance refChars hypChars : ℚ) / (refChars.length : ℚ)

/-- Criterion keys of the weighted composite score. -/
inductive Criterion
  | accuracy
  | latency
  | cost
  | dx
deriving DecidableEq

/-- The four scoring weights of the run configuration. -/
structure Weights where
  accuracy : ℚ
  latency : ℚ
  cost : ℚ
  dx : ℚ

/-- Weight selection by criterion key. -/
def Weights.get (w : Weights) : Criterion → ℚ
  | Criterion.accuracy => w.accuracy
  | Criterion.latency => w.latency
  | Criterion.cost => w.cost
  | Criterion.dx => w.dx

/-- Status of a per-sample result row. -/
inductive SampleStatus
  | ok
  | error
deriving DecidableEq

/-- One row of the per-sample result collection of the orchestrator; the
optional fields model the JS fields that are `null` or absent in one of the
two branches. -/
structure SampleResult where
  sampleId : List Char
  providerId : List Char
  status : SampleStatus
  latencyMs : ℚ
  wer : Option ℚ
  cer : Option ℚ
  transcript : Option (List Char)
  reference : List Char
  tags : List (List Char)
  errorMessage : Option (List Char)
deriving DecidableEq

/-- A loosely typed value in the hypotheses map of a sample: a string or
any non-string JSON value. -/
inductive JsVal
  | str (s : List Char)
  | other
deriving DecidableEq

/-- A dataset sample as the benchmark consumes it. -/
structure Sample where
  id : List Char
  reference : List Char
  audioFile : Option (List Char)
  tags : List (List Char)
  hypotheses : List (List Char × JsVal)
deriving DecidableEq

/-- The provider fields the core logic reads. -/
structure Provider where
  id : List Char
  ptype : List Char
  enabled : Option Bool
  field : Option (List Char)
  costPerHourUsd : Option ℚ
  integrationEffort : Option ℚ
deriving DecidableEq

/-- The aggregate fields pushed for one provider by the first loop of
`summarizeProviderResults`. -/
structure SummaryBase where
  providerId : List Char
  providerType : List Char
  totalSamples : ℕ
  okCount : ℕ
  errorCount : ℕ
  successRatePct : ℚ
  avgWer : Option ℚ
  medianWer : Option ℚ
  avgCer : Option ℚ
  avgLatencyMs : Option ℚ
  p90LatencyMs : Option ℚ
  costPerHourUsd : Option ℚ
  integrationEffort : Option ℚ

/-- The first loop of `summarizeProviderResults` for one provider: filter
the rows of the provider, keep the ok rows, aggregate error rates over the
defined values and latencies over the ok rows, and sanitize the manual
scoring inputs. -/
def baseRowFor (allResults : List SampleResult) (p : Provider) : SummaryBase :=
  let rows := allResults.filter (fun row => row.providerId = p.id)
  let okRows := rows.filter (fun row => row.status = SampleStatus.ok)
  let werValues := okRows.filterMap (fun row => row.wer)
  let cerValues := okRows.filterMap (fun row => row.cer)
  let latencyValues := okRows.map (fun row => row.latencyMs)
  { providerId := p.id
    providerType := p.ptype
    totalSamples := rows.length
    okCount := okRows.length
    errorCount := rows.length - okRows.length
    successRatePct :=
      if rows.length = 0 then 0 else (okRows.length : ℚ) / (rows.length : ℚ) * 100
    avgWer := mean werValues
    medianWer := percentile werValues 50
    avgCer := mean cerValues
    avgLatencyMs := mean latencyValues
    p90LatencyMs := percentile latencyValues 90
    costPerHourUsd := p.costPerHourUsd
    integrationEffort :=
      match p.integrationEffort with
      | some e => if 1 ≤ e ∧ e ≤ 5 then some e else none
      | none => none }

/-- The cost score computation of the second loop of
`summarizeProviderResults`, relative to the sanitized cost column of all
summary rows. -/
def costScoreOf (costs : List (Option ℚ)) (cost : Option ℚ) : Option ℚ :=
  let availableCosts := (costs.filterMap id).filter (fun v => 0 ≤ v)
  let hasZeroCost := availableCosts.any (fun v => v = 0)
  let lowestPositiveCost := (availableCosts.filter (fun v => 0 < v)).min?
  match cost with
  | none => none
  | some c =>
    if c = 0 then some 100
    else if hasZeroCost then some 0
    else
      match lowestPositiveCost with
      | some m => if 0 < c then some (clamp (m / c * 100) 0 100) else none
      | none => none

/-- The accuracy score of the second loop. -/
def accuracyScoreOf (avgWer : Option ℚ) : Option ℚ :=
  avgWer.map (fun wer => clamp ((1 - wer) * 100) 0 100)

/-- The latency score of the second loop: defined only when the best mean
latency exists and this provider has a positive mean latency. -/
def latencyScoreOf (bestLatency avgLatencyMs : Option ℚ) : Option ℚ :=
  match bestLatency, avgLatencyMs with
  | some b, some a => if 0 < a then some (clamp (b / a * 100) 0 100) else none
  | _, _ => none

/-- The developer-experience score of the second loop. -/
def dxScoreOf (integrationEffort : Option ℚ) : Option ℚ :=
  integrationEffort.map (fun e => clamp ((5 - e) / 4 * 100) 0 100)

/-- The defined (criterion, score) pairs of a row, in the order of the
script. -/
def componentsOf (aS lS cS dS : Option ℚ) : List (Criterion × ℚ) :=
  ([(Criterion.accuracy, aS), (Criterion.latency, lS),
    (Criterion.cost, cS), (Criterion.dx, dS)]).filterMap
    (fun kc => kc.2.map (fun v => (kc.1, v)))

/-- The composite total of the script: sum the weights of the defined
criteria; when that active weight is zero the total is `null`, otherwise
fold the sum of `score * weight / activeWeight`. -/
def totalScoreOf (w : Weights) (aS lS cS dS : Option ℚ) : Option ℚ :=
  let components := componentsOf aS lS cS dS
  let activeWeight := (components.map (fun kc => w.get kc.1)).sum
  if activeWeight = 0 then none
  else some ((components.map (fun kc => kc.2 * w.get kc.1 / activeWeight)).sum)

/-- A fully scored summary row. -/
structure SummaryRow extends SummaryBase where
  accuracyScore : Option ℚ
  latencyScore : Option ℚ
  costScore : Option ℚ
  dxScore : Option ℚ
  totalScore : Option ℚ

/-- The second loop of `summarizeProviderResults`: attach the four
criterion scores and the weighted total to every row. -/
def scoreRows (w : Weights) (base : List SummaryBase) : List SummaryRow :=
  let bestLatency := (base.filterMap (fun row => row.avgLatencyMs)).min?
  let costs := base.map (fun row => row.costPerHourUsd)
  base.map (fun row =>
    let aS := accuracyScoreOf row.avgWer
    let lS := latencyScoreOf bestLatency row.avgLatencyMs
    let cS := costScoreOf costs row.costPerHourUsd
    let dS := dxScoreOf row.integrationEffort
    { toSummaryBase := row
      accuracyScore := aS
      latencyScore := lS
      costScore := cS
      dxScore := dS
      totalScore := totalScoreOf w aS lS cS dS })

/-- The ranking key of the final sort: total score then accuracy score,
with `null` mapped to -1. -/
def rankKey (row : SummaryRow) : ℚ × ℚ :=
  (row.totalScore.getD (-1), row.accuracyScore.getD (-1))

/-- The `summarizeProviderResults` function of the script: one base row per
provider, the scoring pass, then the ranking sort (descending total score,
ties broken by descending accuracy score). -/
def summarizeProviderResults (allResults : List SampleResult)
    (providers : List Provider) (w : Weights) : List SummaryRow :=
  let scored := scoreRows w (providers.map (baseRowFor allResults))
  List.insertionSort
    (fun l r =>
      (rankKey r).1 < (rankKey l).1 ∨
        ((rankKey r).1 = (rankKey l).1 ∧ (rankKey r).2 ≤ (rankKey l).2))
    scored

/-- Outcome of one transcription call at the adapter boundary: a transcript
or a failure message, each together with the measured wall-clock latency
(the script computes the latency in both the try and the catch branch). -/
inductive TranscribeOutcome
  | ok (transcript : List Char) (latencyMs : ℚ)
  | fail (message : List Char) (latencyMs : ℚ)

/-- Error raised by the dataset-hypothesis branch of
`transcribeWithProvider`. -/
inductive TranscribeError
  | missingHypothesis (sampleId fieldName : List Char)
deriving DecidableEq

/-- Lookup of `sample.hypotheses[field]` in the hypotheses map. -/
def lookupHypothesis (hyps : List (List Char × JsVal)) (fieldName : List Char) :
    Option JsVal :=
  (hyps.find? (fun kv => kv.1 = fieldName)).map (fun kv => kv.2)

/-- The dataset-hypothesis branch of `transcribeWithProvider`: read
`sample.hypotheses[field]` with `field` defaulting to the provider id; the
script guards the value with `!transcript || typeof transcript !== "string"`,
so an absent value, a non-string value, and the empty string all raise
the missing-hypothesis error. -/
def transcribeDatasetHypothesis (p : Provider) (s : Sample) :
    Except TranscribeError (List Char) :=
  let fieldName := p.field.getD p.id
  match lookupHypothesis s.hypotheses fieldName with
  | some (JsVal.str t) =>
    if t = [] then Except.error (TranscribeError.missingHypothesis s.id fieldName)
    else Except.ok t
  | _ => Except.error (TranscribeError.missingHypothesis s.id fieldName)

/-- Decidable criterion for the dataset-hypothesis branch to fail: the
entry is absent, not a string, or the empty string. -/
def hypothesisMissing (hyps : List (List Char × JsVal)) (fieldName : List Char) : Bool :=
  match lookupHypothesis hyps fieldName with
  | some (JsVal.str t) => t.isEmpty
  | _ => true

/-- Fatal failures of `main` after the input files parsed. -/
inductive FatalError
  | noEnabledProviders
  | noSamples
  | invalidProvider (id : List Char)
deriving DecidableEq

/-- The per-provider validation at the top of the run loop of `main`: the
id and type fields must be nonempty strings (JS rejects a missing, empty or
non-string field through the truthiness test). -/
def validProvider (p : Provider) : Bool :=
  !(p.id.isEmpty) && !(p.ptype.isEmpty)

/-- The body of the inner sample loop of `main`: on success compute the two
error rates and emit an ok row; on any failure record the normalized
message; the latency field is filled in both branches. -/
def runSample (oracle : Provider → Sample → TranscribeOutcome)
    (p : Provider) (s : Sample) : SampleResult :=
  match oracle p s with
  | TranscribeOutcome.ok transcript latencyMs =>
    { sampleId := s.id
      providerId := p.id
      status := SampleStatus.ok
      latencyMs := latencyMs
      wer := some (computeWordErrorRate s.reference transcript)
      cer := some (computeCharacterErrorRate s.reference transcript)
      transcript := some transcript
      reference := s.reference
      tags := s.tags
      errorMessage := none }
  | TranscribeOutcome.fail message latencyMs =>
    { sampleId := s.id
      providerId := p.id
      status := SampleStatus.error
      latencyMs := latencyMs
      wer := none
      cer := none
      transcript := none
      reference := s.reference
      tags := s.tags
      errorMessage := some message }

/-- The provider loop of `main`: each enabled provider is validated, then
every sample runs; a transcription failure is data in the emitted row and
never a thrown error. -/
def runProviders (oracle : Provider → Sample → TranscribeOutcome)
    (samples : List Sample) : List Provider → Except FatalError (List SampleResult)
  | [] => Except.ok []
  | p :: rest =>
    if !(validProvider p) then Except.error (FatalError.invalidProvider p.id)
    else
      match runProviders oracle samples rest with
      | Except.ok results => Except.ok (samples.map (runSample oracle p) ++ results)
      | Except.error e => Except.error e

/-- The run logic of `main` after load-time parsing: keep the providers not
explicitly disabled, cap the sample list, fail fatally exactly on an empty
provider or sample list (or an invalid provider record), then run every
(provider, sample) pair and summarize. -/
def runBenchmark (oracle : Provider → Sample → TranscribeOutcome)
    (providersConfig : List Provider) (dataset : List Sample)
    (maxSamples : Option ℕ) (w : Weights) :
    Except FatalError (List SampleResult × List SummaryRow) :=
  let providers := providersConfig.filter (fun p => p.enabled ≠ some false)
  if providers.isEmpty then Except.error FatalError.noEnabledProviders
  else
    let sampleLimit := maxSamples.getD dataset.length
    let samples := dataset.take sampleLimit
    if samples.isEmpty then Except.error FatalError.noSamples
    else
      match runProviders oracle samples providers with
      | Except.ok results =>
        Except.ok (results, summarizeProviderResults results providers w)
      | Except.error e => Except.error e

theorem list_sum_div (l : List (Criterion × ℚ)) (f : Criterion × ℚ → ℚ) (W : ℚ) :
    (l.map (fun kc => f kc / W)).sum = (l.map f).sum / W := by
  induction l with
  | nil => simp
  | cons x xs ih => simp [ih, add_div]

/-- C6: mean returns no value on an empty input (never zero) and otherwise
the arithmetic mean of the values (all values are finite in the ℚ model;
the script filters non-finite values at every call site);
mean [] is undefined and mean [2,4,6] = 4. -/
theorem mean_spec :
    mean [] = none ∧
    (∀ x : ℚ, ∀ xs : List ℚ,
      mean (x :: xs) = some ((x :: xs).sum / ((x :: xs).length : ℚ))) ∧
    mean [2, 4, 6] = some 4 := by
  refine ⟨rfl, ?_, ?_⟩
  · intro x xs
    simp [mean]
  · unfold mean
    rw [if_neg (by simp : ¬([2, 4, 6] : List ℚ) = [])]
    norm_num

/-- C1 counterexample: a provider with cost undefined and accuracy 80,
latency 60, dx 100 under weights 40/25/20/15 totals
(80·40 + 60·25 + 100·15)/80 = 77.5, not the 68.75 stated by the claim. -/
theorem totalScore_example_counterexample :
    totalScoreOf (Weights.mk 40 25 20 15) (some 80) (some 60) none (some 100) =
      some (155 / 2) ∧
    totalScoreOf (Weights.mk 40 25 20 15) (some 80) (some 60) none (some 100) ≠
      some (275 / 4) := by
  have h : totalScoreOf (Weights.mk 40 25 20 15) (some 80) (some 60) none (some 100) =
      some (155 / 2) := by
    simp only [totalScoreOf, componentsOf, Weights.get, List.filterMap_cons,
      List.filterMap_nil, Option.map_some', Option.map_none', List.map_cons,
      List.map_nil, List.sum_cons, List.sum_nil]
    norm_num
  refine ⟨h, ?_⟩
  rw [h]
  intro hcontra
  rw [Option.some.injEq] at hcontra
  norm_num at hcontra

/-- C1 (amended): the composite total keeps the criteria with a defined
score, renormalizes the configured weights over that subset and takes the
weighted sum (equivalently: the weight-weighted score sum divided by the
active weight); the total is none when no criterion is defined; on the
worked example (cost undefined, accuracy 80, latency 60, dx 100, weights
40/25/20/15) the total is 77.5. -/
theorem totalScore_renormalization (w : Weights) (aS lS cS dS : Option ℚ) :
    (aS = none → lS = none → cS = none → dS = none →
      totalScoreOf w aS lS cS dS = none) ∧
    (((componentsOf aS lS cS dS).map (fun kc => w.get kc.1)).sum ≠ 0 →
      totalScoreOf w aS lS cS dS =
        some (((componentsOf aS lS cS dS).map (fun kc => kc.2 * w.get kc.1)).sum /
          ((componentsOf aS lS cS dS).map (fun kc => w.get kc.1)).sum)) ∧
    totalScoreOf (Weights.mk 40 25 20 15) (some 80) (some 60) none (some 100) =
      some (155 / 2) := by
  refine ⟨?_, ?_, ?_⟩
  · intro h1 h2 h3 h4
    subst h1; subst h2; subst h3; subst h4
    rfl
  · intro hW
    simp only [totalScoreOf]
    rw [if_neg hW]
    rw [list_sum_div (componentsOf aS lS cS dS) (fun kc => kc.2 * w.get kc.1)
      (((componentsOf aS lS cS dS).map (fun kc => w.get kc.1)).sum)]
  · simp only [totalScoreOf, componentsOf, Weights.get, List.filterMap_cons,
      List.filterMap_nil, Option.map_some', Option.map_none', List.map_cons,
      List.map_nil, List.sum_cons, List.sum_nil]
    norm_num

/-- Closed instance of the renormalization theorem with every hypothesis
discharged at concrete inputs. -/
theorem totalScore_renormalization_witness :
    totalScoreOf (Weights.mk 40 25 20 15) none none none none = none ∧
    totalScoreOf (Weights.mk 1 1 1 1) (some 10) none none none = some 10 := by
  constructor
  · exact (totalScore_renormalization (Weights.mk 40 25 20 15) none none none none).1
      rfl rfl rfl rfl
  · have h := (totalScore_renormalization (Weights.mk 1 1 1 1)
      (some 10) none none none).2.1 (by
        simp only [componentsOf, Weights.get, List.filterMap_cons, List.filterMap_nil,
          Option.map_some', Option.map_none', List.map_cons, List.map_nil,
          List.sum_cons, List.sum_nil]
        norm_num)
    rw [h]
    simp only [componentsOf, Weights.get, List.filterMap_cons, List.filterMap_nil,
      Option.map_some', Option.map_none', List.map_cons, List.map_nil,
      List.sum_cons, List.sum_nil]
    norm_num

/-- C2: the cost score of the run: a provider with cost exactly 0 scores
100; when any provider of the run has cost 0, every provider with positive
cost scores 0; otherwise a provider with positive cost scores
clamp(lowest positive cost / its cost * 100, 0, 100); a provider without a
numeric cost has no cost score; with costs 0, 5 and 10 the positive costs
score 0 and the zero cost scores 100. -/
theorem costScore_spec :
    (∀ costs : List (Option ℚ), costScoreOf costs (some 0) = some 100) ∧
    (∀ costs : List (Option ℚ), ∀ c : ℚ, some 0 ∈ costs → 0 < c →
      costScoreOf costs (some c) = some 0) ∧
    (∀ costs : List (Option ℚ), ∀ c : ℚ, some 0 ∉ costs → 0 < c → some c ∈ costs →
      ∃ m : ℚ,
        (((costs.filterMap id).filter (fun v => 0 ≤ v)).filter
          (fun v => 0 < v)).min? = some m ∧
        costScoreOf costs (some c) = some (clamp (m / c * 100) 0 100)) ∧
    (∀ costs : List (Option ℚ), costScoreOf costs none = none) ∧
    costScoreOf [some 0, some 5, some 10] (some 5) = some 0 ∧
    costScoreOf [some 0, some 5, some 10] (some 10) = some 0 ∧
    costScoreOf [some 0, some 5, some 10] (some 0) = some 100 := by
  have hmain :
      ∀ costs : List (Option ℚ), ∀ c : ℚ, some 0 ∉ costs → 0 < c → some c ∈ costs →
      ∃ m : ℚ,
        (((costs.filterMap id).filter (fun v => 0 ≤ v)).filter
          (fun v => 0 < v)).min? = some m ∧
        costScoreOf costs (some c) = some (clamp (m / c * 100) 0 100) := by
    intro costs c h0 hc hcmem
    have hcP : c ∈ ((costs.filterMap id).filter (fun v => 0 ≤ v)).filter
        (fun v => 0 < v) := by
      rw [List.mem_filter]
      refine ⟨?_, by simpa using hc⟩
      rw [List.mem_filter]
      refine ⟨?_, by simpa using le_of_lt hc⟩
      rw [List.mem_filterMap]
      exact ⟨some c, hcmem, rfl⟩
    have hsome : (((costs.filterMap id).filter (fun v => 0 ≤ v)).filter
        (fun v => 0 < v)).min?.isSome = true := by
      cases hP : ((costs.filterMap id).filter (fun v => 0 ≤ v)).filter
          (fun v => 0 < v) with
      | nil => rw [hP] at hcP; simp at hcP
      | cons a as => rfl
    obtain ⟨m, hm⟩ := Option.isSome_iff_exists.mp hsome
    have hz : ((costs.filterMap id).filter (fun v => 0 ≤ v)).any
        (fun v => v = 0) = false := by
      by_contra hny
      rw [Bool.not_eq_false, List.any_eq_true] at hny
      obtain ⟨v, hv, hveq⟩ := hny
      rw [decide_eq_true_eq] at hveq
      subst hveq
      rw [List.mem_filter] at hv
      obtain ⟨hv1, _⟩ := hv
      rw [List.mem_filterMap] at hv1
      obtain ⟨a, ha, hid⟩ := hv1
      have : a = some 0 := by simpa using hid
      subst this
      exact h0 ha
    refine ⟨m, hm, ?_⟩
    simp only [costScoreOf, hz, hm, if_neg hc.ne', Bool.false_eq_true, if_false,
      if_pos hc]
  refine ⟨?_, ?_, hmain, ?_, ?_, ?_, ?_⟩
  · intro costs
    simp [costScoreOf]
  · intro costs c h0 hc
    have hz : ((costs.filterMap id).filter (fun v => 0 ≤ v)).any
        (fun v => v = 0) = true := by
      rw [List.any_eq_true]
      refine ⟨0, ?_, by simp⟩
      rw [List.mem_filter]
      refine ⟨?_, by simp⟩
      rw [List.mem_filterMap]
      exact ⟨some 0, h0, rfl⟩
    simp only [costScoreOf, hz, if_neg hc.ne', if_true]
  · intro costs
    rfl
  · decide
  · decide
  · decide

/-- Closed instance of the cost-score theorem with every hypothesis
discharged at concrete inputs. -/
theorem costScore_spec_witness :
    costScoreOf [some 0, some 5] (some 5) = some 0 ∧
    costScoreOf [some 5, some 10] (some 10) = some 50 := by
  constructor
  · exact costScore_spec.2.1 [some 0, some 5] 5 (by simp) (by norm_num)
  · obtain ⟨m, hm, hsc⟩ := costScore_spec.2.2.1 [some 5, some 10] 10
      (by simp) (by norm_num) (by simp)
    have hmval : m = 5 := by
      have : ((([some 5, some 10] : List (Option ℚ)).filterMap id).filter
          (fun v => 0 ≤ v)).filter (fun v => 0 < v) = [5, 10] := by decide
      rw [this] at hm
      have h5 : ([5, 10] : List ℚ).min? = some 5 := by decide
      rw [h5] at hm
      exact (Option.some.injEq _ _ ▸ hm).symm
    subst hmval
    rw [hsc]
    norm_num [clamp]

/-- C3: wordErrorRate is 0 when both strings tokenize to zero words, 1 when
only the reference does, and otherwise the word-level Levenshtein distance
of the token lists divided by the number of reference words (the dynamic
program of the script provably computes the textbook distance); the
quotient is not clamped and can exceed 1. -/
theorem computeWordErrorRate_spec :
    (∀ reference hypothesis : List Char,
      computeWordErrorRate reference hypothesis =
        if tokenizeWords reference = [] then
          (if tokenizeWords hypothesis = [] then 0 else 1)
        else
          ((lev (tokenizeWords reference) (tokenizeWords hypothesis) : ℚ) /
            ((tokenizeWords reference).length : ℚ))) ∧
    computeWordErrorRate [] [] = 0 ∧
    computeWordErrorRate [] ('h' :: 'e' :: 'l' :: 'l' :: 'o' :: []) = 1 ∧
    1 < computeWordErrorRate ('a' :: []) ('b' :: ' ' :: 'c' :: ' ' :: 'd' :: []) := by
  refine ⟨?_, ?_, ?_, ?_⟩
  · intro reference hypothesis
    simp only [computeWordErrorRate, levenshteinDistance_eq_lev, List.length_eq_zero]
  · decide
  · decide
  · have e1 : tokenizeWords ('a' :: []) = [['a']] := by decide
    have e2 : tokenizeWords ('b' :: ' ' :: 'c' :: ' ' :: 'd' :: []) =
        [['b'], ['c'], ['d']] := by decide
    have e3 : levenshteinDistance [['a']] [['b'], ['c'], ['d']] = 3 := by decide
    simp only [computeWordErrorRate, e1, e2, e3]
    norm_num

instance {ε α : Type} [DecidableEq ε] [DecidableEq α] : DecidableEq (Except ε α) :=
  fun x y =>
    match x, y with
    | Except.ok a, Except.ok b =>
      if h : a = b then Decidable.isTrue (congrArg Except.ok h)
      else Decidable.isFalse (fun hh => h (Except.ok.inj hh))
    | Except.error a, Except.error b =>
      if h : a = b then Decidable.isTrue (congrArg Except.error h)
      else Decidable.isFalse (fun hh => h (Except.error.inj hh))
    | Except.ok _, Except.error _ => Decidable.isFalse (fun hh => Except.noConfusion hh)
    | Except.error _, Except.ok _ => Decidable.isFalse (fun hh => Except.noConfusion hh)

/-- Provider used in the concrete dataset-hypothesis counterexample. -/
def emptyHypProvider : Provider :=
  { id := ['p', '1']
    ptype := ['d', 'a', 't', 'a', 's', 'e', 't', 'H', 'y', 'p', 'o', 't', 'h', 'e', 's', 'i', 's']
    enabled := none
    field := none
    costPerHourUsd := none
    integrationEffort := none }

/-- Sample whose hypothesis for provider p1 is present and a string, but
empty. -/
def emptyHypSample : Sample :=
  { id := ['s', '1']
    reference := ['h', 'i']
    audioFile := none
    tags := []
    hypotheses := [(['p', '1'], JsVal.str [])] }

/-- C5 counterexample: a hypothesis entry that is present and a string but
empty is rejected with MissingHypothesis, although the claim says a present
string is returned and the call fails exactly when the entry is absent or
not a string. -/
theorem datasetHypothesis_counterexample :
    lookupHypothesis emptyHypSample.hypotheses
      (emptyHypProvider.field.getD emptyHypProvider.id) = some (JsVal.str []) ∧
    transcribeDatasetHypothesis emptyHypProvider emptyHypSample ≠ Except.ok [] ∧
    transcribeDatasetHypothesis emptyHypProvider emptyHypSample =
      Except.error (TranscribeError.missingHypothesis ['s', '1'] ['p', '1']) := by
  refine ⟨by decide, by decide, by decide⟩

/-- C5 (amended): the dataset-hypothesis transcription looks up
sample.hypotheses[field] with field defaulting to the provider id, returns
the hypothesis exactly when it is present, a string, and nonempty, and
fails with MissingHypothesis exactly when the entry is absent, not a
string, or the empty string (the JS truthiness guard also rejects the empty
string). -/
theorem datasetHypothesis_spec (p : Provider) (s : Sample) :
    (∀ t : List Char,
      transcribeDatasetHypothesis p s = Except.ok t ↔
        (lookupHypothesis s.hypotheses (p.field.getD p.id) = some (JsVal.str t) ∧
          t ≠ [])) ∧
    (transcribeDatasetHypothesis p s =
        Except.error (TranscribeError.missingHypothesis s.id (p.field.getD p.id)) ↔
      hypothesisMissing s.hypotheses (p.field.getD p.id) = true) := by
  unfold transcribeDatasetHypothesis hypothesisMissing
  cases h : lookupHypothesis s.hypotheses (p.field.getD p.id) with
  | none => simp only [h]; simp
  | some v =>
    cases v with
    | str t =>
      by_cases ht : t = []
      · subst ht
        simp only [h]
        simp
      · simp only [h]
        simp [ht, List.isEmpty_iff]
    | other => simp only [h]; simp

/-- C9: every SampleResult the runner creates satisfies the status
invariant: an ok row has wer, cer and transcript populated and no error
message; an error row has an error message and no wer, cer or transcript;
the status is always one of the two; and the latency field is total by
construction, mirroring the script, which assigns latencyMs in both the
try and the catch branch. -/
theorem sampleResult_invariant (oracle : Provider → Sample → TranscribeOutcome)
    (p : Provider) (s : Sample) :
    ((runSample oracle p s).status = SampleStatus.ok →
      ((runSample oracle p s).wer.isSome ∧ (runSample oracle p s).cer.isSome ∧
        (runSample oracle p s).transcript.isSome ∧
        (runSample oracle p s).errorMessage = none)) ∧
    ((runSample oracle p s).status = SampleStatus.error →
      ((runSample oracle p s).errorMessage.isSome ∧ (runSample oracle p s).wer = none ∧
        (runSample oracle p s).cer = none ∧ (runSample oracle p s).transcript = none)) ∧
    ((runSample oracle p s).status = SampleStatus.ok ∨
      (runSample oracle p s).status = SampleStatus.error) := by
  cases h : oracle p s with
  | ok transcript latencyMs =>
    refine ⟨?_, ?_, ?_⟩ <;> simp [runSample, h]
  | fail message latencyMs =>
    refine ⟨?_, ?_, ?_⟩ <;> simp [runSample, h]

/-- Closed instance of the status invariant at concrete ok and error
outcomes, discharging the status hypotheses. -/
theorem sampleResult_invariant_witness :
    ((runSample (fun _ _ => TranscribeOutcome.fail ['b', 'o', 'o', 'm'] 3)
        emptyHypProvider emptyHypSample).errorMessage.isSome ∧
      (runSample (fun _ _ => TranscribeOutcome.fail ['b', 'o', 'o', 'm'] 3)
        emptyHypProvider emptyHypSample).wer = none ∧
      (runSample (fun _ _ => TranscribeOutcome.fail ['b', 'o', 'o', 'm'] 3)
        emptyHypProvider emptyHypSample).cer = none ∧
      (runSample (fun _ _ => TranscribeOutcome.fail ['b', 'o', 'o', 'm'] 3)
        emptyHypProvider emptyHypSample).transcript = none) ∧
    ((runSample (fun _ _ => TranscribeOutcome.ok ['h', 'i'] 2)
        emptyHypProvider emptyHypSample).wer.isSome ∧
      (runSample (fun _ _ => TranscribeOutcome.ok ['h', 'i'] 2)
        emptyHypProvider emptyHypSample).cer.isSome ∧
      (runSample (fun _ _ => TranscribeOutcome.ok ['h', 'i'] 2)
        emptyHypProvider emptyHypSample).transcript.isSome ∧
      (runSample (fun _ _ => TranscribeOutcome.ok ['h', 'i'] 2)
        emptyHypProvider emptyHypSample).errorMessage = none) := by
  constructor
  · exact (sampleResult_invariant (fun _ _ => TranscribeOutcome.fail ['b', 'o', 'o', 'm'] 3)
      emptyHypProvider emptyHypSample).2.1 (by decide)
  · exact (sampleResult_invariant (fun _ _ => TranscribeOutcome.ok ['h', 'i'] 2)
      emptyHypProvider emptyHypSample).1 (by decide)

/-- C10: the latency aggregates of a provider summary row are the mean and
90th percentile of the latencies of the ok rows of that provider only; they
are invariant under any change to the failed rows, and a provider with no
ok rows has no latency aggregates even when failed rows carry latencies. -/
theorem latencyAggregates_spec (allResults : List SampleResult) (p : Provider) :
    ((baseRowFor allResults p).avgLatencyMs =
      mean (((allResults.filter (fun r => r.providerId = p.id)).filter
        (fun r => r.status = SampleStatus.ok)).map (fun r => r.latencyMs))) ∧
    ((baseRowFor allResults p).p90LatencyMs =
      percentile (((allResults.filter (fun r => r.providerId = p.id)).filter
        (fun r => r.status = SampleStatus.ok)).map (fun r => r.latencyMs)) 90) ∧
    ((allResults.filter (fun r => r.providerId = p.id)).filter
        (fun r => r.status = SampleStatus.ok) = [] →
      ((baseRowFor allResults p).avgLatencyMs = none ∧
        (baseRowFor allResults p).p90LatencyMs = none)) ∧
    (∀ otherResults : List SampleResult,
      (allResults.filter (fun r => r.providerId = p.id)).filter
          (fun r => r.status = SampleStatus.ok) =
        (otherResults.filter (fun r => r.providerId = p.id)).filter
          (fun r => r.status = SampleStatus.ok) →
      ((baseRowFor allResults p).avgLatencyMs =
          (baseRowFor otherResults p).avgLatencyMs ∧
        (baseRowFor allResults p).p90LatencyMs =
          (baseRowFor otherResults p).p90LatencyMs)) := by
  refine ⟨rfl, rfl, ?_, ?_⟩
  · intro hempty
    constructor
    · show mean (((allResults.filter (fun r => r.providerId = p.id)).filter
        (fun r => r.status = SampleStatus.ok)).map (fun r => r.latencyMs)) = none
      rw [hempty]
      rfl
    · show percentile (((allResults.filter (fun r => r.providerId = p.id)).filter
        (fun r => r.status = SampleStatus.ok)).map (fun r => r.latencyMs)) 90 = none
      rw [hempty]
      rfl
  · intro otherResults heq
    constructor
    · show mean (((allResults.filter (fun r => r.providerId = p.id)).filter
          (fun r => r.status = SampleStatus.ok)).map (fun r => r.latencyMs)) =
        mean (((otherResults.filter (fun r => r.providerId = p.id)).filter
          (fun r => r.status = SampleStatus.ok)).map (fun r => r.latencyMs))
      rw [heq]
    · show percentile (((allResults.filter (fun r => r.providerId = p.id)).filter
          (fun r => r.status = SampleStatus.ok)).map (fun r => r.latencyMs)) 90 =
        percentile (((otherResults.filter (fun r => r.providerId = p.id)).filter
          (fun r => r.status = SampleStatus.ok)).map (fun r => r.latencyMs)) 90
      rw [heq]

/-- Failed result row used in the latency-aggregate witness: its latency is
recorded but must not enter the aggregates. -/
def failedLatencyResult : SampleResult :=
  { sampleId := ['s', '1']
    providerId := ['p', '1']
    status := SampleStatus.error
    latencyMs := 123
    wer := none
    cer := none
    transcript := none
    reference := ['h', 'i']
    tags := []
    errorMessage := some ['b', 'a', 'd'] }

/-- Closed instance of the latency-aggregate theorem: a provider whose only
rows failed has undefined mean and p90 latency although a latency was
recorded. -/
theorem latencyAggregates_spec_witness :
    failedLatencyResult.latencyMs = 123 ∧
    ((baseRowFor [failedLatencyResult] emptyHypProvider).avgLatencyMs = none ∧
      (baseRowFor [failedLatencyResult] emptyHypProvider).p90LatencyMs = none) ∧
    (baseRowFor [failedLatencyResult] emptyHypProvider).avgLatencyMs =
      (baseRowFor [] emptyHypProvider).avgLatencyMs := by
  refine ⟨rfl, ?_, ?_⟩
  · exact (latencyAggregates_spec [failedLatencyResult] emptyHypProvider).2.2.1 (by decide)
  · exact ((latencyAggregates_spec [failedLatencyResult] emptyHypProvider).2.2.2
      [] (by decide)).1

theorem runProviders_ok (oracle : Provider → Sample → TranscribeOutcome)
    (samples : List Sample) :
    ∀ providers : List Provider, (∀ p ∈ providers, validProvider p = true) →
      runProviders oracle samples providers =
        Except.ok (providers.flatMap (fun p => samples.map (runSample oracle p))) := by
  intro providers h
  induction providers with
  | nil => rfl
  | cons p rest ih =>
    have hp : validProvider p = true := h p (List.mem_cons_self p rest)
    have hrest := ih (fun q hq => h q (List.mem_cons_of_mem p hq))
    simp [runProviders, hp, hrest]

/-- C8: once the per-provider validation holds (every enabled provider has
a nonempty id and type), the run fails fatally exactly when there are zero
enabled providers or zero samples after the cap; a successful run returns
one runner row per (provider, sample) pair, and a failing transcription
call is turned into an error row carrying its message rather than aborting
the run. -/
theorem runBenchmark_spec (oracle : Provider → Sample → TranscribeOutcome)
    (providersConfig : List Provider) (dataset : List Sample)
    (maxSamples : Option ℕ) (w : Weights)
    (hvalid : ∀ p ∈ providersConfig.filter (fun p => p.enabled ≠ some false),
      validProvider p = true) :
    ((∃ out, runBenchmark oracle providersConfig dataset maxSamples w =
        Except.ok out) ↔
      (providersConfig.filter (fun p => p.enabled ≠ some false) ≠ [] ∧
        dataset.take (maxSamples.getD dataset.length) ≠ [])) ∧
    (∀ results summary,
      runBenchmark oracle providersConfig dataset maxSamples w =
        Except.ok (results, summary) →
      results = (providersConfig.filter (fun p => p.enabled ≠ some false)).flatMap
        (fun p => (dataset.take (maxSamples.getD dataset.length)).map
          (runSample oracle p))) ∧
    (∀ p s msg lat, oracle p s = TranscribeOutcome.fail msg lat →
      ((runSample oracle p s).status = SampleStatus.error ∧
        (runSample oracle p s).errorMessage = some msg)) := by
  have hrun := runProviders_ok oracle (dataset.take (maxSamples.getD dataset.length))
    (providersConfig.filter (fun p => p.enabled ≠ some false)) hvalid
  refine ⟨?_, ?_, ?_⟩
  · constructor
    · rintro ⟨out, hout⟩
      simp only [runBenchmark] at hout
      by_cases h1 : (providersConfig.filter (fun p => p.enabled ≠ some false)).isEmpty = true
      · rw [if_pos h1] at hout
        exact Except.noConfusion hout
      · by_cases h2 : (dataset.take (maxSamples.getD dataset.length)).isEmpty = true
        · rw [if_neg h1, if_pos h2] at hout
          exact Except.noConfusion hout
        · constructor
          · intro hcon
            exact h1 (List.isEmpty_iff.mpr hcon)
          · intro hcon
            exact h2 (List.isEmpty_iff.mpr hcon)
    · rintro ⟨h1, h2⟩
      simp only [runBenchmark]
      rw [if_neg (fun hc => h1 (List.isEmpty_iff.mp hc)),
        if_neg (fun hc => h2 (List.isEmpty_iff.mp hc)), hrun]
      exact ⟨_, rfl⟩
  · intro results summary hok
    simp only [runBenchmark] at hok
    by_cases h1 : (providersConfig.filter (fun p => p.enabled ≠ some false)).isEmpty = true
    · rw [if_pos h1] at hok
      exact Except.noConfusion hok
    · by_cases h2 : (dataset.take (maxSamples.getD dataset.length)).isEmpty = true
      · rw [if_neg h1, if_pos h2] at hok
        exact Except.noConfusion hok
      · rw [if_neg h1, if_neg h2, hrun] at hok
        simp only [Except.ok.injEq, Prod.mk.injEq] at hok
        exact hok.1.symm
  · intro p s msg lat h
    constructor <;> simp [runSample, h]

/-- Sample used in the closed orchestrator witness. -/
def witnessSample : Sample :=
  { id := ['s']
    reference := ['h', 'i']
    audioFile := none
    tags := []
    hypotheses := [] }

/-- Closed instance of the orchestrator theorem: with one valid enabled
provider, one sample and an always-failing adapter, the run still succeeds. -/
theorem runBenchmark_spec_witness :
    ∃ out, runBenchmark (fun _ _ => TranscribeOutcome.fail ['e'] 1)
      [emptyHypProvider] [witnessSample] none (Weights.mk 40 25 20 15) =
        Except.ok out := by
  exact (runBenchmark_spec (fun _ _ => TranscribeOutcome.fail ['e'] 1)
    [emptyHypProvider] [witnessSample] none (Weights.mk 40 25 20 15)
    (by decide)).1.mpr ⟨by decide, by decide⟩

/-- C4: evaluation of the normalizer at the failing input: the strip class
of the script contains the mojibake characters U+00E2, U+20AC, U+2122
instead of the right single quote U+2019, so the five-character input
d, o, n, U+2019, t normalizes to the six characters of "don t" (the quote
becomes a space) and not to "dont" as stripping an apostrophe variant
requires; the mojibake characters are deleted although they are not
apostrophe variants. -/
theorem normalizeTranscript_bug :
    normalizeTranscript ['d', 'o', 'n', Char.ofNat 0x2019, 't'] =
      ['d', 'o', 'n', ' ', 't'] ∧
    normalizeTranscript ['d', 'o', 'n', Char.ofNat 0x2019, 't'] ≠
      ['d', 'o', 'n', 't'] ∧
    normalizeTranscript ['a', Char.ofNat 0x20ac, 'b'] = ['a', 'b'] := by
  refine ⟨by decide, by decide, by decide⟩

/-- C7: percentile of an empty list is undefined; for a nonempty list and a
percentage between 0 and 100 it sorts the values ascending and linearly
interpolates between the entries at the floor and the ceiling of the
fractional index p/100 * (n-1); percentile([1,2,3,4], 50) = 2.5. -/
theorem percentile_spec :
    (∀ p : ℚ, percentile [] p = none) ∧
    percentile [1, 2, 3, 4] 50 = some (5 / 2) ∧
    (∀ values : List ℚ, ∀ p : ℚ, values ≠ [] → 0 ≤ p → p ≤ 100 →
      percentile values p =
        some
          ((List.insertionSort (fun a b => a ≤ b) values).getD
              (⌊p / 100 * ((values.length : ℚ) - 1)⌋).toNat 0 +
            ((List.insertionSort (fun a b => a ≤ b) values).getD
                (⌈p / 100 * ((values.length : ℚ) - 1)⌉).toNat 0 -
              (List.insertionSort (fun a b => a ≤ b) values).getD
                (⌊p / 100 * ((values.length : ℚ) - 1)⌋).toNat 0) *
              (p / 100 * ((values.length : ℚ) - 1) -
                (⌊p / 100 * ((values.length : ℚ) - 1)⌋ : ℤ)))) := by
  refine ⟨?_, ?_, ?_⟩
  · intro p
    rfl
  · have hs : List.insertionSort (fun a b => a ≤ b) ([1, 2, 3, 4] : List ℚ) =
        [1, 2, 3, 4] := by decide
    have hv : (50 : ℚ) / 100 * ((((4 : ℕ) : ℚ)) - 1) = 3 / 2 := by norm_num
    simp only [percentile, hs]
    rw [if_neg (by simp : ¬([1, 2, 3, 4] : List ℚ) = [])]
    rw [show (([1, 2, 3, 4] : List ℚ).length : ℚ) = ((4 : ℕ) : ℚ) by norm_num]
    rw [hv]
    rw [show ⌊(3 / 2 : ℚ)⌋ = 1 by
      rw [Int.floor_eq_iff]
      constructor <;> norm_num]
    rw [show ⌈(3 / 2 : ℚ)⌉ = 2 by
      rw [Int.ceil_eq_iff]
      constructor <;> norm_num]
    rw [if_neg (by norm_num : ¬(1 : ℤ) = 2)]
    rw [show listGetInt [1, 2, 3, 4] 1 = some 2 by decide]
    rw [show listGetInt [1, 2, 3, 4] 2 = some 3 by decide]
    rw [Option.some.injEq]
    norm_num
  · intro values p hne hp0 hp100
    simp only [percentile]
    rw [if_neg hne]
    have hlen : 1 ≤ values.length := List.length_pos.mpr hne
    have hsortlen : (List.insertionSort (fun a b => a ≤ b) values).length =
        values.length := List.length_insertionSort _ _
    have hn1 : (0 : ℚ) ≤ (values.length : ℚ) - 1 := by
      have : (1 : ℚ) ≤ (values.length : ℚ) := by exact_mod_cast hlen
      linarith
    have hi0 : 0 ≤ p / 100 * ((values.length : ℚ) - 1) :=
      mul_nonneg (div_nonneg hp0 (by norm_num)) hn1
    have hile : p / 100 * ((values.length : ℚ) - 1) ≤ (values.length : ℚ) - 1 := by
      have hp1 : p / 100 ≤ 1 := (div_le_one (by norm_num)).mpr hp100
      calc p / 100 * ((values.length : ℚ) - 1) ≤ 1 * ((values.length : ℚ) - 1) :=
            mul_le_mul_of_nonneg_right hp1 hn1
        _ = (values.length : ℚ) - 1 := one_mul _
    have hfl0 : 0 ≤ ⌊p / 100 * ((values.length : ℚ) - 1)⌋ := Int.floor_nonneg.mpr hi0
    have hcl : ⌈p / 100 * ((values.length : ℚ) - 1)⌉ ≤ (values.length : ℤ) - 1 := by
      rw [Int.ceil_le]
      push_cast
      exact hile
    have hfc : ⌊p / 100 * ((values.length : ℚ) - 1)⌋ ≤
        ⌈p / 100 * ((values.length : ℚ) - 1)⌉ := Int.floor_le_ceil _
    have hflnat : (⌊p / 100 * ((values.length : ℚ) - 1)⌋).toNat < values.length := by
      omega
    have hclnat : (⌈p / 100 * ((values.length : ℚ) - 1)⌉).toNat < values.length := by
      omega
    have hgetf : listGetInt (List.insertionSort (fun a b => a ≤ b) values)
        ⌊p / 100 * ((values.length : ℚ) - 1)⌋ =
        some ((List.insertionSort (fun a b => a ≤ b) values).getD
          (⌊p / 100 * ((values.length : ℚ) - 1)⌋).toNat 0) := by
      unfold listGetInt
      rw [if_pos hfl0]
      rw [List.getElem?_eq_getElem (by rw [hsortlen]; exact hflnat)]
      rw [List.getD_eq_getElem _ _ (by rw [hsortlen]; exact hflnat)]
    have hgetc : listGetInt (List.insertionSort (fun a b => a ≤ b) values)
        ⌈p / 100 * ((values.length : ℚ) - 1)⌉ =
        some ((List.insertionSort (fun a b => a ≤ b) values).getD
          (⌈p / 100 * ((values.length : ℚ) - 1)⌉).toNat 0) := by
      unfold listGetInt
      rw [if_pos (le_trans hfl0 hfc)]
      rw [List.getElem?_eq_getElem (by rw [hsortlen]; exact hclnat)]
      rw [List.getD_eq_getElem _ _ (by rw [hsortlen]; exact hclnat)]
    by_cases heq : ⌊p / 100 * ((values.length : ℚ) - 1)⌋ =
        ⌈p / 100 * ((values.length : ℚ) - 1)⌉
    · rw [if_pos heq, hgetf]
      have hieq : ((⌊p / 100 * ((values.length : ℚ) - 1)⌋ : ℤ) : ℚ) =
          p / 100 * ((values.length : ℚ) - 1) := by
        have h1 := Int.floor_le (p / 100 * ((values.length : ℚ) - 1))
        have h2 := Int.le_ceil (p / 100 * ((values.length : ℚ) - 1))
        rw [← heq] at h2
        exact le_antisymm h1 h2
      rw [← heq, Option.some.injEq, ← hieq]
      ring
    · rw [if_neg heq, hgetf, hgetc]

/-- Closed instance of the percentile theorem at a concrete unsorted list:
the 90th percentile of 3, 1, 2 is 2.8. -/
theorem percentile_spec_witness : percentile [3, 1, 2] 90 = some (14 / 5) := by
  have h := percentile_spec.2.2 [3, 1, 2] 90 (by simp) (by norm_num) (by norm_num)
  rw [h]
  have hv : (90 : ℚ) / 100 * ((([3, 1, 2] : List ℚ).length : ℚ) - 1) = 9 / 5 := by
    norm_num
  rw [hv]
  rw [show ⌊(9 / 5 : ℚ)⌋ = 1 by
    rw [Int.floor_eq_iff]
    constructor <;> norm_num]
  rw [show ⌈(9 / 5 : ℚ)⌉ = 2 by
    rw [Int.ceil_eq_iff]
    constructor <;> norm_num]
  rw [show List.insertionSort (fun a b => a ≤ b) ([3, 1, 2] : List ℚ) = [1, 2, 3] by
    decide]
  rw [show ([1, 2, 3] : List ℚ).getD (1 : ℤ).toNat 0 = 2 by decide]
  rw [show ([1, 2, 3] : List ℚ).getD (2 : ℤ).toNat 0 = 3 by decide]
  rw [Option.some.injEq]
  norm_num
